import Mathlib

/-!
Verification of the UNIDOWN listing identity / additive-merge engine,
the per-listing lock manager, the URL normalizer, the perceptual image
deduplication engine and the unification (cross-platform merge) endpoint.

Each definition is a shallow embedding of the corresponding JavaScript
function in the repository (file and line references in the doc comments).
JavaScript null and undefined are both modelled by the single constructor
JsValue.null (the source only ever distinguishes them from real values,
never from each other).  Timestamps (new Date().toISOString()) are passed
in as an explicit `now : String` parameter.
-/

namespace Unidown

/-- Model of a dynamically typed JavaScript value as stored in
metadata.json.  `null` covers both JS null and undefined; `obj` is an
opaque non-null object (e.g. the location / coordinates structures),
identified by a tag so equality is decidable. -/
inductive JsValue where
  | null
  | str (s : String)
  | num (n : Int)
  | boolean (b : Bool)
  | obj (tag : Nat)
deriving DecidableEq, Repr

/-- The emptiness test of mergeMetadataAdditive (src/server.js:868):
a value is "empty" when it is null, undefined or the empty string. -/
def jsEmpty : JsValue → Bool
  | .null => true
  | .str s => s == ""
  | _ => false

/-- JavaScript `a || b` on two optional strings: the empty string is
falsy, so it falls through to `b` (used for `img.original || img.local`
and `existing.firstScrapedAt || existing.scrapedAt`). -/
def jsOrS : Option String → Option String → Option String
  | some s, b => if s == "" then b else some s
  | none, b => b

/-- One entry of a listing's `images` array: `{original, local}`
(src/server.js:413-416).  The source field named `local` is a Lean
keyword, so it is rendered `localPath`. -/
structure Image where
  original : Option String
  localPath : Option String
deriving DecidableEq, Repr

/-- The dedup/merge key of an image: `img.original || img.local`
(src/server.js:831,839); `none` models a falsy key. -/
def imageKey (img : Image) : Option String :=
  jsOrS img.original img.localPath

/-- A stored listing (metadata.json), restricted to the fields the
additive merge engine reads or writes.  All protected scalar fields are
modelled as one map from field name to JsValue, mirroring the dynamic
`existing[field]` accesses of mergeMetadataAdditive (src/server.js:863-873). -/
structure Listing where
  fields : String → JsValue
  images : List Image
  amenities : List String
  houseRules : List String
  highlights : List String
  safetyItems : List String
  scrapedAt : Option String
  firstScrapedAt : Option String
  lastUpdatedAt : Option String
  updateCount : Nat
  updateHistory : List String

/-- The fixed protected-field list of mergeMetadataAdditive
(src/server.js:853-860). -/
def protectedStringFields : List String :=
  ["id", "title", "description", "location", "address", "city", "country",
   "propertyType", "hostName", "hostAvatar", "hostAbout", "hostSuperhost",
   "hostJoined", "sourceUrl", "platform", "currency", "pricePerNight",
   "originalPrice", "cleaningFee", "serviceFee", "guests", "bedrooms",
   "beds", "bathrooms", "rating", "reviewCount", "checkIn", "checkOut",
   "responseRate", "responseTime", "cancellationPolicy", "coordinates"]

/-- JavaScript `Set.add` on a set represented as an insertion-ordered
duplicate-free list (the iteration order of a JS Set). -/
def setAdd (s : List String) (x : String) : List String :=
  if x ∈ s then s else s ++ [x]

/-- `Array.from(new Set(existing))` followed by adding every element of
`newItems`: the amenity / house-rule / highlight / safety-item merge of
mergeMetadataAdditive (src/server.js:880-909). -/
def setUnionList (existing newItems : List String) : List String :=
  newItems.foldl setAdd (existing.foldl setAdd [])

/-- Does the association-list model of a JS Map contain key `k`. -/
def mapHas (m : List (String × Image)) (k : String) : Bool :=
  m.any (fun kv => kv.1 == k)

/-- JS `Map.set`: replace in place on an existing key (keeping insertion
position), append otherwise. -/
def mapSet (m : List (String × Image)) (k : String) (v : Image) :
    List (String × Image) :=
  if mapHas m k then m.map (fun kv => if kv.1 == k then (k, v) else kv)
  else m ++ [(k, v)]

/-- First loop of mergeImages (src/server.js:830-835): insert an existing
image under its key, skipping images with a falsy key. -/
def addExisting (m : List (String × Image)) (img : Image) :
    List (String × Image) :=
  match imageKey img with
  | some k => mapSet m k img
  | none => m

/-- Second loop of mergeImages (src/server.js:838-843): add a new image
only if its key is not already present. -/
def addNew (m : List (String × Image)) (img : Image) :
    List (String × Image) :=
  match imageKey img with
  | some k => if mapHas m k then m else m ++ [(k, img)]
  | none => m

/-- mergeImages (src/server.js:826-846): union of two image lists keyed
by `original || local`, existing entries first, insertion order kept. -/
def mergeImages (existing newImages : List Image) : List Image :=
  ((newImages.foldl addNew (existing.foldl addExisting [])).map Prod.snd)

/-- mergeMetadataAdditive (src/server.js:849-921): protected scalar
fields are filled only when empty, collection fields are unioned, and the
update bookkeeping advances.  `now` stands for new Date().toISOString(). -/
def mergeMetadataAdditive (existing newData : Listing) (now : String) :
    Listing :=
  { existing with
    fields := fun f =>
      if f ∈ protectedStringFields ∧ jsEmpty (existing.fields f) = true ∧
          jsEmpty (newData.fields f) = false
      then newData.fields f else existing.fields f,
    images := mergeImages existing.images newData.images,
    amenities := setUnionList existing.amenities newData.amenities,
    houseRules := setUnionList existing.houseRules newData.houseRules,
    highlights := setUnionList existing.highlights newData.highlights,
    safetyItems := setUnionList existing.safetyItems newData.safetyItems,
    firstScrapedAt := jsOrS existing.firstScrapedAt existing.scrapedAt,
    lastUpdatedAt := some now,
    updateCount := existing.updateCount + 1,
    updateHistory := existing.updateHistory ++ [now] }

/-! ### Listing lock manager (src/server.js:20-48) -/

/-- Sweep interval of the stale-lock cleanup timer, in milliseconds
(src/server.js:48). -/
def SWEEP_INTERVAL_MS : Nat := 30000

/-- Staleness threshold for lock reclamation, in milliseconds
(src/server.js:41). -/
def STALE_LOCK_MS : Nat := 60000

/-- One pass of the stale-lock sweep (src/server.js:39-48): every lock
whose age strictly exceeds STALE_LOCK_MS is deleted from the lock map
(modelled as an association list id to acquisition timestamp). -/
def sweepStaleLocks (locks : List (String × Nat)) (now : Nat) :
    List (String × Nat) :=
  locks.filter (fun kv => !(decide (now - kv.2 > STALE_LOCK_MS)))

/-- Events of the lock manager for one listing id: a successful
`listingLocks.set` at the end of acquireListingLock (src/server.js:31),
the unconditional delete of releaseListingLock (src/server.js:34-36),
the passage of `d` milliseconds, and one run of the stale-lock sweep. -/
inductive LEvent where
  | acq (p : Nat)
  | rel (p : Nat)
  | tick (d : Nat)
  | sweep
deriving DecidableEq, Repr

/-- Lock-manager state for a single listing id: the holder (caller id and
acquisition time, mirroring the Map value Date.now()) and the clock. -/
structure LState where
  holder : Option (Nat × Nat)
  clock : Nat
deriving DecidableEq, Repr

/-- Initial state: no lock held, clock at zero. -/
def initLockState : LState := { holder := none, clock := 0 }

/-- Effect of one event on the lock state.  An acq sets the holder (the
check-then-set of acquireListingLock is one synchronous segment of the
event loop, with no await between the has-check and the set); the sweep
clears the holder exactly when its age exceeds STALE_LOCK_MS
(src/server.js:43-45). -/
def lstep (s : LState) : LEvent → LState
  | .acq p => { s with holder := some (p, s.clock) }
  | .rel _ => { s with holder := none }
  | .tick d => { s with clock := s.clock + d }
  | .sweep =>
    match s.holder with
    | some (_, t) => if s.clock - t > STALE_LOCK_MS then { s with holder := none } else s
    | none => s

/-- Validity of an event trace: an acq event can only fire when no lock
is held (the while loop of acquireListingLock at src/server.js:25 only
exits, and the set at line 31 only runs, when the map has no entry). -/
def validFrom : LState → List LEvent → Bool
  | _, [] => true
  | s, e :: es =>
    (match e with
     | .acq _ => s.holder.isNone
     | _ => true) && validFrom (lstep s e) es

/-- Is the event a release. -/
def isRel : LEvent → Bool
  | .rel _ => true
  | _ => false

/-! ### URL / identity normalizer (src/server.js:350-357) -/

/-- Characters ending the host part of an http(s) URL. -/
def stopHost (c : Char) : Bool := c == '/' || c == '?' || c == '#'

/-- Characters ending the pathname (start of query or fragment). -/
def stopPath (c : Char) : Bool := c == '?' || c == '#'

/-- The components of a parsed URL that normalizeUrl reads. -/
structure UrlParts where
  origin : String
  pathname : String
deriving DecidableEq, Repr

/-- The pathname of the part following the host: from the '/' up to the
first '?' or '#', defaulting to "/" when the path is absent (the query or
fragment starts right after the host). -/
def pathnameOf (afterHost : List Char) : List Char :=
  match afterHost with
  | c :: _ =>
    if c = '/' then afterHost.takeWhile (fun c => !stopPath c) else ['/']
  | [] => ['/']

/-- Host and pathname extraction after the scheme, mirroring the WHATWG
behaviour used by `new URL`: the host runs to the first '/', '?' or '#'
and must be nonempty; the pathname runs from the '/' to the first '?' or
'#' and defaults to "/". -/
def parseAfterScheme (scheme : String) (rest : List Char) : Option UrlParts :=
  if (rest.takeWhile (fun c => !stopHost c)).isEmpty then none
  else
    some { origin := scheme ++ String.mk (rest.takeWhile (fun c => !stopHost c)),
           pathname :=
             String.mk (pathnameOf (rest.dropWhile (fun c => !stopHost c))) }

/-- Model of `new URL(url)` restricted to the hierarchical http(s) URLs
the scrapers produce, keeping the host and path verbatim; a string with
no http(s) scheme or an empty host is unparseable (JS URL throws). -/
def parseUrl (s : String) : Option UrlParts :=
  if s.toList.take 8 = "https://".toList then
    parseAfterScheme "https://" (s.toList.drop 8)
  else if s.toList.take 7 = "http://".toList then
    parseAfterScheme "http://" (s.toList.drop 7)
  else none

/-- JS `p.replace(/\x2f$/, '')`: remove one trailing slash. -/
def stripTrailingSlash (p : String) : String :=
  match p.toList.getLast? with
  | some '/' => String.mk p.toList.dropLast
  | _ => p

/-- normalizeUrl (src/server.js:350-357): origin plus pathname with the
trailing slash removed; on a parse failure the input is returned
unchanged (the catch branch). -/
def normalizeUrl (url : String) : String :=
  match parseUrl url with
  | some u => u.origin ++ stripTrailingSlash u.pathname
  | none => url

/-! ### Perceptual image deduplication (src/unnamed/part_000:448-516) -/

/-- hammingDistance (src/unnamed/part_000:448-455): number of differing
positions of two equal-length hash strings; `none` models the Infinity
returned on a length mismatch. -/
def hammingDistance : List Char → List Char → Option Nat
  | [], [] => some 0
  | a :: as, b :: bs =>
    match hammingDistance as bs with
    | some d => some (if a ≠ b then d + 1 else d)
    | none => none
  | _, _ => none

/-- The duplicate test `distance <= threshold`
(src/unnamed/part_000:502): false when the distance is Infinity. -/
def distLe (d : Option Nat) (t : Nat) : Bool :=
  match d with
  | some n => n ≤ t
  | none => false

/-- The loop of deduplicateImages (src/unnamed/part_000:488-513),
threaded through the accumulated canonical hashes.  `hashOf` abstracts
getImageHash (perceptual hash of the file behind `img.local || img`,
null on an unreadable image). -/
def dedupGo {α : Type} (hashOf : α → Option (List Char)) (t : Nat) :
    List α → List (List Char) → List α
  | [], _ => []
  | img :: rest, hashes =>
    match hashOf img with
    | none => img :: dedupGo hashOf t rest hashes
    | some h =>
      if hashes.any (fun eh => distLe (hammingDistance h eh) t) then
        dedupGo hashOf t rest hashes
      else
        img :: dedupGo hashOf t rest (hashes ++ [h])

/-- deduplicateImages (src/unnamed/part_000:484-516): greedy
single-linkage-to-canonical dedup, first-seen image of each group kept. -/
def deduplicateImages {α : Type} (hashOf : α → Option (List Char))
    (images : List α) (t : Nat) : List α :=
  dedupGo hashOf t images []

/-- Number of duplicates removed by deduplicateImages
(src/unnamed/part_000:609: `removed = images.length - uniqueImages.length`). -/
def dedupRemoved {α : Type} (hashOf : α → Option (List Char))
    (images : List α) (t : Nat) : Nat :=
  images.length - (deduplicateImages hashOf images t).length

/-! ### Unification endpoint image copying
(src/server.js:1432-1457 and src/unnamed/part_000:743-772) -/

/-- The parts of the filesystem the merge endpoint's copy loop consults:
whether the resolved source of a local image path exists, and whether a
file name is already present in the unified folder's images directory
before the request starts. -/
structure CopyEnv where
  srcExists : String → Bool
  destExists : String → Bool

/-- path.basename: the last '/'-separated segment (computed on the
character list so that it evaluates by kernel reduction). -/
def basename (s : String) : String :=
  String.mk ((s.toList.reverse.takeWhile (fun c => c ≠ '/')).reverse)

/-- The copy decision of the loop (src/server.js:1444-1447): the file is
physically copied only when the target does not already exist — neither
on disk before the request nor among the files copied earlier in it. -/
def copyStepCopied (env : CopyEnv) (copied : List String)
    (filename : String) : List String :=
  if env.destExists filename || copied.contains filename then copied
  else copied ++ [filename]

/-- One iteration of the image copy loop of the merge endpoint
(src/server.js:1435-1457, identical loop at src/unnamed/part_000:750-772).
State: file names copied so far in this request, and the mergedImages
accumulator.  An image with no `local` is skipped entirely; a copy is
performed only when the target file does not already exist. -/
def copyStep (env : CopyEnv) (mergedFolder : String)
    (st : List String × List Image) (img : Image) :
    List String × List Image :=
  match img.localPath with
  | none => st
  | some l =>
    if env.srcExists l then
      (copyStepCopied env st.1 (basename l),
       st.2 ++ [{ original := img.original,
                  localPath :=
                    some ("/downloads/" ++ mergedFolder ++ "/images/" ++
                      basename l) }])
    else
      (st.1, st.2 ++ [img])

/-- The whole copy loop: returns the list of file names physically
copied and the mergedImages array. -/
def copyImagesLoop (env : CopyEnv) (mergedFolder : String)
    (images : List Image) : List String × List Image :=
  images.foldl (copyStep env mergedFolder) ([], [])

/-- Image handling of the merge endpoint in src/server.js:1432-1457: the
caller-supplied final image list `merged.images` is copied as is. -/
def serverMergeEndpointImages (env : CopyEnv) (mergedFolder : String)
    (mergedImages : List Image) : List String × List Image :=
  copyImagesLoop env mergedFolder mergedImages

/-- Image handling of the merge endpoint in src/unnamed/part_000:743-772:
the caller-supplied list is first deduplicated with the hash strategy at
threshold 5, then copied. -/
def part000MergeEndpointImages (env : CopyEnv) (mergedFolder : String)
    (hashOf : Image → Option (List Char)) (mergedImages : List Image) :
    List String × List Image :=
  copyImagesLoop env mergedFolder (deduplicateImages hashOf mergedImages 5)

/-! ### PATCH /api/listings/:id (src/server.js:653-733) -/

/-- The location structure of a stored listing. -/
structure LocationV where
  address : Option String
  city : Option String
  country : Option String
  lat : Option Rat
  lng : Option Rat
deriving DecidableEq, Repr

/-- Empty location object, created by `metadata.location = {}`. -/
def emptyLocation : LocationV :=
  { address := none, city := none, country := none, lat := none, lng := none }

/-- The metadata fields the PATCH handler reads or writes. -/
structure PListing where
  title : Option String
  sourceUrl : Option String
  description : Option String
  location : Option LocationV
  amenities : List String
  images : List Image
  editedAt : Option String
deriving DecidableEq, Repr

/-- A PATCH request body.  A `none` field models an absent (undefined)
key.  `gps` carries the result of `gps.split(',').map(parseFloat)`, with
`none` entries for NaN; floats are modelled as rationals. -/
structure PatchReq where
  title : Option String
  sourceUrl : Option String
  description : Option String
  location : Option String
  gps : Option (List (Option Rat))
  amenities : Option (List String)
  images : Option (List Image)
deriving Repr

/-- The location-string update (src/server.js:676-682). -/
def applyLocationString (m : PListing) (locStr : String) : PListing :=
  let loc := m.location.getD emptyLocation
  let parts := (locStr.splitOn ",").map (fun p => p.trim)
  let loc := { loc with address := some (parts.getD 0 "") }
  let loc := if parts.length ≥ 2 then { loc with city := some (parts.getD 1 "") } else loc
  let loc := if parts.length ≥ 3 then { loc with country := some (parts.getD 2 "") } else loc
  { m with location := some loc }

/-- The GPS update with bounds validation (src/server.js:685-695): the
coordinates are stored only when both parse and lie in range; otherwise
they are silently ignored (`metadata.location` is still created when
absent). -/
def applyGps (m : PListing) (coords : List (Option Rat)) : PListing :=
  let loc := m.location.getD emptyLocation
  let loc :=
    if coords.length ≥ 2 then
      match coords.getD 0 none, coords.getD 1 none with
      | some lat, some lng =>
        if -90 ≤ lat ∧ lat ≤ 90 ∧ -180 ≤ lng ∧ lng ≤ 180 then
          { loc with lat := some lat, lng := some lng }
        else loc
      | _, _ => loc
    else loc
  { m with location := some loc }

/-- `if (title !== undefined) metadata.title = title` (src/server.js:671). -/
def applyTitle (m : PListing) (v : Option String) : PListing :=
  match v with
  | some t => { m with title := some t }
  | none => m

/-- `if (sourceUrl !== undefined) ...` (src/server.js:672). -/
def applySourceUrl (m : PListing) (v : Option String) : PListing :=
  match v with
  | some u => { m with sourceUrl := some u }
  | none => m

/-- `if (description !== undefined) ...` (src/server.js:673). -/
def applyDescription (m : PListing) (v : Option String) : PListing :=
  match v with
  | some d => { m with description := some d }
  | none => m

/-- `if (location !== undefined) ...` (src/server.js:676-682). -/
def applyLocationOpt (m : PListing) (v : Option String) : PListing :=
  match v with
  | some l => applyLocationString m l
  | none => m

/-- `if (gps !== undefined) ...` (src/server.js:685-695). -/
def applyGpsOpt (m : PListing) (v : Option (List (Option Rat))) : PListing :=
  match v with
  | some c => applyGps m c
  | none => m

/-- `if (amenities !== undefined) ...` (src/server.js:697). -/
def applyAmenities (m : PListing) (v : Option (List String)) : PListing :=
  match v with
  | some a => { m with amenities := a }
  | none => m

/-- `if (images !== undefined) ...` (src/server.js:698-711). -/
def applyImages (m : PListing) (v : Option (List Image)) : PListing :=
  match v with
  | some i => { m with images := i }
  | none => m

/-- The metadata mutation of the PATCH handler (src/server.js:671-712),
field updates applied in source order, `editedAt` always set.  The
on-disk deletion of removed image files is a side effect outside the
metadata record and is not part of this model. -/
def patchListing (m : PListing) (r : PatchReq) (now : String) : PListing :=
  { applyImages
      (applyAmenities
        (applyGpsOpt
          (applyLocationOpt
            (applyDescription
              (applySourceUrl (applyTitle m r.title) r.sourceUrl)
              r.description)
            r.location)
          r.gps)
        r.amenities)
      r.images with editedAt := some now }

/-- The latitude stored on a listing, if any. -/
def locLat (m : PListing) : Option Rat :=
  match m.location with
  | some l => l.lat
  | none => none

/-- The longitude stored on a listing, if any. -/
def locLng (m : PListing) : Option Rat :=
  match m.location with
  | some l => l.lng
  | none => none

/-! ### Lemmas on the string-set union -/

theorem mem_setAdd {s : List String} {x y : String} :
    y ∈ setAdd s x ↔ y ∈ s ∨ y = x := by
  by_cases h : x ∈ s
  · simp only [setAdd, if_pos h]
    constructor
    · exact Or.inl
    · rintro (hy | rfl)
      · exact hy
      · exact h
  · simp [setAdd, if_neg h]

theorem length_setAdd (s : List String) (x : String) :
    s.length ≤ (setAdd s x).length := by
  by_cases h : x ∈ s <;> simp [setAdd, h]

theorem length_foldl_setAdd (l : List String) :
    ∀ s, s.length ≤ (l.foldl setAdd s).length := by
  induction l with
  | nil => intro s; simp
  | cons a l ih =>
    intro s
    exact le_trans (length_setAdd s a) (ih (setAdd s a))

theorem mem_foldl_setAdd (l : List String) :
    ∀ s y, y ∈ l.foldl setAdd s ↔ y ∈ s ∨ y ∈ l := by
  induction l with
  | nil => intro s y; simp
  | cons a l ih =>
    intro s y
    rw [List.foldl_cons, ih]
    simp only [mem_setAdd, List.mem_cons]
    tauto

theorem foldl_setAdd_of_disjoint (l : List String) :
    ∀ s, (∀ x ∈ l, x ∉ s) → l.Nodup → l.foldl setAdd s = s ++ l := by
  induction l with
  | nil => intro s _ _; simp
  | cons a l ih =>
    intro s hdisj hnodup
    have ha : a ∉ s := hdisj a (List.mem_cons_self a l)
    have hset : setAdd s a = s ++ [a] := by simp [setAdd, ha]
    have hd2 : ∀ x ∈ l, x ∉ s ++ [a] := by
      intro x hx
      simp only [List.mem_append, List.mem_singleton, not_or]
      refine ⟨hdisj x (List.mem_cons_of_mem a hx), ?_⟩
      rintro rfl
      exact (List.nodup_cons.mp hnodup).1 hx
    rw [List.foldl_cons, hset, ih (s ++ [a]) hd2 (List.nodup_cons.mp hnodup).2,
      List.append_assoc]
    simp

theorem foldl_setAdd_nil_of_nodup {l : List String} (h : l.Nodup) :
    l.foldl setAdd [] = l := by
  have := foldl_setAdd_of_disjoint l [] (by simp) h
  simpa using this

theorem length_setUnionList {a b : List String} (h : a.Nodup) :
    a.length ≤ (setUnionList a b).length := by
  unfold setUnionList
  rw [foldl_setAdd_nil_of_nodup h]
  exact length_foldl_setAdd b a

theorem setUnionList_nil_right {a : List String} (h : a.Nodup) :
    setUnionList a [] = a := by
  unfold setUnionList
  simp [foldl_setAdd_nil_of_nodup h]

theorem mem_setUnionList {a b : List String} {y : String} :
    y ∈ setUnionList a b ↔ y ∈ a ∨ y ∈ b := by
  unfold setUnionList
  rw [mem_foldl_setAdd, mem_foldl_setAdd]
  simp [or_comm]

/-! ### Lemmas on the image merge -/

theorem length_addNew (m : List (String × Image)) (img : Image) :
    m.length ≤ (addNew m img).length := by
  unfold addNew
  cases imageKey img with
  | none => simp
  | some k =>
    by_cases h : mapHas m k <;> simp [h]

theorem length_foldl_addNew (l : List Image) :
    ∀ m, m.length ≤ (l.foldl addNew m).length := by
  induction l with
  | nil => intro m; simp
  | cons a l ih =>
    intro m
    exact le_trans (length_addNew m a) (ih (addNew m a))

theorem foldl_addExisting_snd (ex : List Image) :
    ∀ m, (∀ i ∈ ex, (imageKey i).isSome) →
      (ex.filterMap imageKey).Nodup →
      (∀ i ∈ ex, ∀ k, imageKey i = some k → mapHas m k = false) →
      ((ex.foldl addExisting m).map Prod.snd) = m.map Prod.snd ++ ex := by
  induction ex with
  | nil => intro m _ _ _; simp
  | cons i ex ih =>
    intro m hsome hnodup hfresh
    obtain ⟨k, hk⟩ := Option.isSome_iff_exists.mp (hsome i (List.mem_cons_self i ex))
    have hfk : mapHas m k = false := hfresh i (List.mem_cons_self i ex) k hk
    have hstep : addExisting m i = m ++ [(k, i)] := by
      simp [addExisting, hk, mapSet, hfk]
    have hcons : (i :: ex).filterMap imageKey = k :: ex.filterMap imageKey := by
      simp [List.filterMap_cons, hk]
    rw [hcons] at hnodup
    have hknot : k ∉ ex.filterMap imageKey := (List.nodup_cons.mp hnodup).1
    have hfresh' : ∀ i' ∈ ex, ∀ k', imageKey i' = some k' →
        mapHas (m ++ [(k, i)]) k' = false := by
      intro i' hi' k' hk'
      have h1 : mapHas m k' = false := hfresh i' (List.mem_cons_of_mem i hi') k' hk'
      have h2 : k' ≠ k := by
        rintro rfl
        exact hknot (List.mem_filterMap.mpr ⟨i', hi', hk'⟩)
      have happ : mapHas (m ++ [(k, i)]) k' = (mapHas m k' || (k == k')) := by
        simp [mapHas, List.any_append]
      rw [happ, h1]
      simp only [Bool.false_or, beq_eq_false_iff_ne, ne_eq]
      exact fun h => h2 h.symm
    rw [List.foldl_cons, hstep,
      ih (m ++ [(k, i)]) (fun i' h => hsome i' (List.mem_cons_of_mem i h))
        (List.nodup_cons.mp hnodup).2 hfresh']
    simp

theorem base_map_snd {ex : List Image}
    (hsome : ∀ i ∈ ex, (imageKey i).isSome)
    (hnodup : (ex.filterMap imageKey).Nodup) :
    ((ex.foldl addExisting []).map Prod.snd) = ex := by
  have := foldl_addExisting_snd ex [] hsome hnodup
    (by intro i _ k _; simp [mapHas])
  simpa using this

theorem length_mergeImages {ex nw : List Image}
    (hsome : ∀ i ∈ ex, (imageKey i).isSome)
    (hnodup : (ex.filterMap imageKey).Nodup) :
    ex.length ≤ (mergeImages ex nw).length := by
  unfold mergeImages
  have hb : ((ex.foldl addExisting []).map Prod.snd) = ex := base_map_snd hsome hnodup
  have hlen : (ex.foldl addExisting []).length = ex.length := by
    rw [← List.length_map (ex.foldl addExisting []) Prod.snd, hb]
  rw [List.length_map]
  rw [← hlen]
  exact length_foldl_addNew nw (ex.foldl addExisting [])

theorem mergeImages_nil_right {ex : List Image}
    (hsome : ∀ i ∈ ex, (imageKey i).isSome)
    (hnodup : (ex.filterMap imageKey).Nodup) :
    mergeImages ex [] = ex := by
  unfold mergeImages
  simpa using base_map_snd hsome hnodup

/-! ### Claim C1 -/

/-- Claim C1: the additive merge never shrinks collections — for a
stored listing satisfying the data-model invariants (its string
collections are duplicate-free, its images carry pairwise-distinct
non-falsy dedup keys), the merged amenities, images, houseRules,
highlights and safetyItems are at least as long as the existing ones,
and empty incoming arrays leave each collection exactly as it was. -/
theorem mergeAdditive_never_shrinks (e n : Listing) (now : String)
    (ha : e.amenities.Nodup) (hr : e.houseRules.Nodup)
    (hh : e.highlights.Nodup) (hs : e.safetyItems.Nodup)
    (hik : ∀ i ∈ e.images, (imageKey i).isSome)
    (hin : (e.images.filterMap imageKey).Nodup) :
    e.amenities.length ≤ (mergeMetadataAdditive e n now).amenities.length ∧
    e.images.length ≤ (mergeMetadataAdditive e n now).images.length ∧
    e.houseRules.length ≤ (mergeMetadataAdditive e n now).houseRules.length ∧
    e.highlights.length ≤ (mergeMetadataAdditive e n now).highlights.length ∧
    e.safetyItems.length ≤ (mergeMetadataAdditive e n now).safetyItems.length ∧
    (n.amenities = [] → (mergeMetadataAdditive e n now).amenities = e.amenities) ∧
    (n.images = [] → (mergeMetadataAdditive e n now).images = e.images) ∧
    (n.houseRules = [] → (mergeMetadataAdditive e n now).houseRules = e.houseRules) ∧
    (n.highlights = [] → (mergeMetadataAdditive e n now).highlights = e.highlights) ∧
    (n.safetyItems = [] → (mergeMetadataAdditive e n now).safetyItems = e.safetyItems) := by
  refine ⟨length_setUnionList ha, length_mergeImages hik hin,
    length_setUnionList hr, length_setUnionList hh, length_setUnionList hs,
    ?_, ?_, ?_, ?_, ?_⟩
  · intro h
    simp only [mergeMetadataAdditive, h]
    exact setUnionList_nil_right ha
  · intro h
    simp only [mergeMetadataAdditive, h]
    exact mergeImages_nil_right hik hin
  · intro h
    simp only [mergeMetadataAdditive, h]
    exact setUnionList_nil_right hr
  · intro h
    simp only [mergeMetadataAdditive, h]
    exact setUnionList_nil_right hh
  · intro h
    simp only [mergeMetadataAdditive, h]
    exact setUnionList_nil_right hs

/-- Concrete existing listing for the C1 witness. -/
def eC1 : Listing :=
  { fields := fun _ => JsValue.null,
    images := [{ original := some "u1", localPath := some "/d/a/images/1.jpg" }],
    amenities := ["WiFi"], houseRules := ["No smoking"],
    highlights := ["Sea view"], safetyItems := ["Smoke alarm"],
    scrapedAt := some "2024-01-01", firstScrapedAt := none,
    lastUpdatedAt := none, updateCount := 0, updateHistory := [] }

/-- Concrete incoming listing for the C1 witness. -/
def nC1 : Listing :=
  { fields := fun _ => JsValue.null,
    images := [{ original := some "u2", localPath := some "/d/b/images/2.jpg" }],
    amenities := ["WiFi", "Pool"], houseRules := [],
    highlights := [], safetyItems := [],
    scrapedAt := none, firstScrapedAt := none,
    lastUpdatedAt := none, updateCount := 0, updateHistory := [] }

/-- Witness for C1 at a concrete listing pair. -/
theorem mergeAdditive_never_shrinks_witness :
    eC1.amenities.Nodup ∧
    eC1.amenities.length ≤ (mergeMetadataAdditive eC1 nC1 "t").amenities.length ∧
    eC1.images.length ≤ (mergeMetadataAdditive eC1 nC1 "t").images.length :=
  ⟨by decide,
   (mergeAdditive_never_shrinks eC1 nC1 "t" (by decide) (by decide) (by decide)
     (by decide) (by decide) (by decide)).1,
   (mergeAdditive_never_shrinks eC1 nC1 "t" (by decide) (by decide) (by decide)
     (by decide) (by decide) (by decide)).2.1⟩

/-! ### Claim C2 -/

/-- Claim C2: protected-field first-write-wins — for every field in the
protected list, a non-null non-empty existing value survives the merge
untouched, and the incoming value is copied exactly when the existing
value is null/undefined/empty and the incoming one is not. -/
theorem protected_field_first_write_wins (e n : Listing) (now f : String)
    (hf : f ∈ protectedStringFields) :
    (jsEmpty (e.fields f) = false →
      (mergeMetadataAdditive e n now).fields f = e.fields f) ∧
    (jsEmpty (e.fields f) = true →
      (mergeMetadataAdditive e n now).fields f =
        if jsEmpty (n.fields f) = true then e.fields f else n.fields f) := by
  constructor
  · intro h
    simp only [mergeMetadataAdditive]
    rw [if_neg]
    rintro ⟨-, h2, -⟩
    rw [h] at h2
    exact Bool.false_ne_true h2
  · intro h
    by_cases hn : jsEmpty (n.fields f) = true
    · have hc : ¬(f ∈ protectedStringFields ∧ jsEmpty (e.fields f) = true ∧
          jsEmpty (n.fields f) = false) := by
        rintro ⟨-, -, h3⟩
        rw [hn] at h3
        simp at h3
      simp only [mergeMetadataAdditive]
      rw [if_neg hc, if_pos hn]
    · have hn' : jsEmpty (n.fields f) = false := by
        simpa using hn
      simp only [mergeMetadataAdditive]
      rw [if_pos ⟨hf, h, hn'⟩, if_neg]
      simp [hn']

/-- Concrete existing listing for the C2 witness: the title is present,
the description is empty. -/
def eC2 : Listing :=
  { eC1 with fields := fun f =>
      if f = "title" then JsValue.str "Ocean View Villa" else JsValue.null }

/-- Concrete incoming listing for the C2 witness: it tries to overwrite
the title and to fill the description. -/
def nC2 : Listing :=
  { nC1 with fields := fun f =>
      if f = "title" then JsValue.str "Beach House"
      else if f = "description" then JsValue.str "Great place" else JsValue.null }

/-- Witness for C2: the present title survives, the empty description is
filled from the incoming listing. -/
theorem protected_field_first_write_wins_witness :
    ("title" ∈ protectedStringFields ∧ jsEmpty (eC2.fields "title") = false ∧
      (mergeMetadataAdditive eC2 nC2 "t").fields "title" =
        JsValue.str "Ocean View Villa") ∧
    ("description" ∈ protectedStringFields ∧
      jsEmpty (eC2.fields "description") = true ∧
      (mergeMetadataAdditive eC2 nC2 "t").fields "description" =
        JsValue.str "Great place") :=
  ⟨⟨by decide, by decide, by
      rw [(protected_field_first_write_wins eC2 nC2 "t" "title" (by decide)).1
        (by decide)]
      decide⟩,
   ⟨by decide, by decide, by
      rw [(protected_field_first_write_wins eC2 nC2 "t" "description"
        (by decide)).2 (by decide)]
      decide⟩⟩

/-! ### Well-formedness of the image map, towards merge idempotence -/

/-- Invariant of the association-list image map built by mergeImages:
keys are duplicate-free and every entry is stored under its own image
key. -/
def WFmap (m : List (String × Image)) : Prop :=
  (m.map Prod.fst).Nodup ∧ ∀ kv ∈ m, imageKey kv.2 = some kv.1

theorem wfmap_nil : WFmap [] := by
  constructor
  · simp
  · intro kv h
    simp at h

theorem mapHas_iff {m : List (String × Image)} {k : String} :
    mapHas m k = true ↔ k ∈ m.map Prod.fst := by
  simp only [mapHas, List.any_eq_true, List.mem_map]
  constructor
  · rintro ⟨kv, hkv, hb⟩
    exact ⟨kv, hkv, beq_iff_eq.mp hb⟩
  · rintro ⟨kv, hkv, hb⟩
    exact ⟨kv, hkv, beq_iff_eq.mpr hb⟩

theorem wf_mapSet {m : List (String × Image)} {k : String} {v : Image}
    (h : WFmap m) (hv : imageKey v = some k) : WFmap (mapSet m k v) := by
  by_cases hk : mapHas m k = true
  · unfold mapSet
    rw [if_pos hk]
    constructor
    · have hmap : (m.map (fun kv => if kv.1 == k then (k, v) else kv)).map Prod.fst =
          m.map Prod.fst := by
        rw [List.map_map]
        apply List.map_congr_left
        intro kv _
        by_cases hb : kv.1 == k
        · simp only [Function.comp_apply, if_pos hb]
          exact (beq_iff_eq.mp hb).symm
        · simp only [Function.comp_apply, if_neg hb]
      rw [hmap]
      exact h.1
    · intro kv' hkv'
      obtain ⟨kv, hkv, hkveq⟩ := List.mem_map.mp hkv'
      by_cases hb : kv.1 == k
      · rw [if_pos hb] at hkveq
        rw [← hkveq]
        exact hv
      · rw [if_neg hb] at hkveq
        rw [← hkveq]
        exact h.2 kv hkv
  · unfold mapSet
    rw [if_neg hk]
    constructor
    · rw [List.map_append]
      simp only [List.map_cons, List.map_nil]
      rw [List.nodup_append]
      refine ⟨h.1, List.nodup_singleton k, ?_⟩
      intro a ha hb
      simp only [List.mem_singleton] at hb
      subst hb
      exact hk (mapHas_iff.mpr ha)
    · intro kv hkv
      rcases List.mem_append.mp hkv with hold | hnew
      · exact h.2 kv hold
      · simp only [List.mem_singleton] at hnew
        subst hnew
        exact hv

theorem wf_addExisting {m : List (String × Image)} (h : WFmap m) (img : Image) :
    WFmap (addExisting m img) := by
  cases hk : imageKey img with
  | none => simp only [addExisting, hk]; exact h
  | some k =>
    simp only [addExisting, hk]
    exact wf_mapSet h hk

theorem wf_addNew {m : List (String × Image)} (h : WFmap m) (img : Image) :
    WFmap (addNew m img) := by
  cases hk : imageKey img with
  | none => simp only [addNew, hk]; exact h
  | some k =>
    simp only [addNew, hk]
    by_cases hh : mapHas m k = true
    · rw [if_pos hh]
      exact h
    · rw [if_neg hh]
      constructor
      · rw [List.map_append]
        simp only [List.map_cons, List.map_nil]
        rw [List.nodup_append]
        refine ⟨h.1, List.nodup_singleton k, ?_⟩
        intro a ha hb
        simp only [List.mem_singleton] at hb
        subst hb
        exact hh (mapHas_iff.mpr ha)
      · intro kv hkv
        rcases List.mem_append.mp hkv with hold | hnew
        · exact h.2 kv hold
        · simp only [List.mem_singleton] at hnew
          subst hnew
          exact hk

theorem wf_foldl_addExisting (l : List Image) :
    ∀ m, WFmap m → WFmap (l.foldl addExisting m) := by
  induction l with
  | nil => intro m h; exact h
  | cons a l ih =>
    intro m h
    exact ih (addExisting m a) (wf_addExisting h a)

theorem wf_foldl_addNew (l : List Image) :
    ∀ m, WFmap m → WFmap (l.foldl addNew m) := by
  induction l with
  | nil => intro m h; exact h
  | cons a l ih =>
    intro m h
    exact ih (addNew m a) (wf_addNew h a)

/-- Rebuilding the map from its own value list is the identity: folding
addExisting over the stored images of a well-formed map reproduces the
map. -/
theorem rebuild_map (m : List (String × Image)) :
    ∀ s, WFmap (s ++ m) → (m.map Prod.snd).foldl addExisting s = s ++ m := by
  induction m with
  | nil => intro s _; simp
  | cons kv m ih =>
    intro s hwf
    obtain ⟨k, v⟩ := kv
    have hv : imageKey v = some k :=
      hwf.2 (k, v) (by simp)
    have hks : mapHas s k = false := by
      rw [Bool.eq_false_iff]
      intro hk
      have hmem := mapHas_iff.mp hk
      have hnodup := hwf.1
      rw [List.map_append] at hnodup
      rcases List.nodup_append.mp hnodup with ⟨-, -, hdisj⟩
      exact hdisj hmem (by simp)
    have hstep : addExisting s v = s ++ [(k, v)] := by
      simp [addExisting, hv, mapSet, hks]
    have hrearr : s ++ (k, v) :: m = (s ++ [(k, v)]) ++ m := by
      simp
    rw [List.map_cons, List.foldl_cons, hstep, ih (s ++ [(k, v)]) (by rw [← hrearr]; exact hwf)]
    simp

theorem mapHas_mono_addNew {m : List (String × Image)} {k : String}
    (h : mapHas m k = true) (img : Image) : mapHas (addNew m img) k = true := by
  cases hk : imageKey img with
  | none => simp only [addNew, hk]; exact h
  | some k' =>
    simp only [addNew, hk]
    by_cases hh : mapHas m k' = true
    · rw [if_pos hh]; exact h
    · rw [if_neg hh]
      simp only [mapHas, List.any_append] at h ⊢
      rw [h]
      simp

theorem mapHas_mono_foldl_addNew (l : List Image) :
    ∀ m k, mapHas m k = true → mapHas (l.foldl addNew m) k = true := by
  induction l with
  | nil => intro m k h; exact h
  | cons a l ih =>
    intro m k h
    exact ih (addNew m a) k (mapHas_mono_addNew h a)

/-- After the addNew loop, the key of every processed image is present. -/
theorem key_present_after_addNew (l : List Image) :
    ∀ m img k, img ∈ l → imageKey img = some k →
      mapHas (l.foldl addNew m) k = true := by
  induction l with
  | nil => intro m img k h; simp at h
  | cons a l ih =>
    intro m img k hmem hk
    rcases List.mem_cons.mp hmem with rfl | htail
    · have hstep : mapHas (addNew m img) k = true := by
        simp only [addNew, hk]
        by_cases hh : mapHas m k = true
        · rw [if_pos hh]; exact hh
        · rw [if_neg hh]
          simp [mapHas, List.any_append]
      exact mapHas_mono_foldl_addNew l (addNew m img) k hstep
    · exact ih (addNew m a) img k htail hk

/-- addNew is the identity once every incoming key is already present. -/
theorem foldl_addNew_id (l : List Image) :
    ∀ m, (∀ img ∈ l, ∀ k, imageKey img = some k → mapHas m k = true) →
      l.foldl addNew m = m := by
  induction l with
  | nil => intro m _; rfl
  | cons a l ih =>
    intro m hall
    have hstep : addNew m a = m := by
      cases hk : imageKey a with
      | none => simp only [addNew, hk]
      | some k =>
        simp only [addNew, hk]
        rw [if_pos (hall a (List.mem_cons_self a l) k hk)]
    rw [List.foldl_cons, hstep]
    exact ih m (fun img h k hk => hall img (List.mem_cons_of_mem a h) k hk)

/-- mergeImages absorbs a second application of the same new images. -/
theorem mergeImages_idem (e n : List Image) :
    mergeImages (mergeImages e n) n = mergeImages e n := by
  unfold mergeImages
  set B := e.foldl addExisting [] with hB
  set F := n.foldl addNew B with hF
  have hwfB : WFmap B := wf_foldl_addExisting e [] wfmap_nil
  have hwfF : WFmap F := wf_foldl_addNew n B hwfB
  have hrebuild : (F.map Prod.snd).foldl addExisting [] = F := by
    have := rebuild_map F [] (by simpa using hwfF)
    simpa using this
  rw [hrebuild]
  have hid : n.foldl addNew F = F := by
    apply foldl_addNew_id
    intro img hmem k hk
    exact key_present_after_addNew n B img k hmem hk
  rw [hid]

/-! ### Claim C4 -/

/-- Claim C4: merge idempotence — re-applying the additive merge with the
same incoming payload leaves every collection's contents unchanged
(string collections as sets, the images array even as a list), while
updateCount and updateHistory still advance by one on each application. -/
theorem mergeAdditive_idempotent (e n : Listing) (t1 t2 : String) :
    (∀ x, x ∈ (mergeMetadataAdditive (mergeMetadataAdditive e n t1) n t2).amenities ↔
      x ∈ (mergeMetadataAdditive e n t1).amenities) ∧
    (∀ x, x ∈ (mergeMetadataAdditive (mergeMetadataAdditive e n t1) n t2).houseRules ↔
      x ∈ (mergeMetadataAdditive e n t1).houseRules) ∧
    (∀ x, x ∈ (mergeMetadataAdditive (mergeMetadataAdditive e n t1) n t2).highlights ↔
      x ∈ (mergeMetadataAdditive e n t1).highlights) ∧
    (∀ x, x ∈ (mergeMetadataAdditive (mergeMetadataAdditive e n t1) n t2).safetyItems ↔
      x ∈ (mergeMetadataAdditive e n t1).safetyItems) ∧
    (mergeMetadataAdditive (mergeMetadataAdditive e n t1) n t2).images =
      (mergeMetadataAdditive e n t1).images ∧
    (mergeMetadataAdditive (mergeMetadataAdditive e n t1) n t2).updateCount =
      (mergeMetadataAdditive e n t1).updateCount + 1 ∧
    (mergeMetadataAdditive e n t1).updateCount = e.updateCount + 1 ∧
    (mergeMetadataAdditive (mergeMetadataAdditive e n t1) n t2).updateHistory.length =
      (mergeMetadataAdditive e n t1).updateHistory.length + 1 := by
  refine ⟨?_, ?_, ?_, ?_, ?_, ?_, ?_, ?_⟩
  · intro x
    simp only [mergeMetadataAdditive]
    simp only [mem_setUnionList]
    tauto
  · intro x
    simp only [mergeMetadataAdditive]
    simp only [mem_setUnionList]
    tauto
  · intro x
    simp only [mergeMetadataAdditive]
    simp only [mem_setUnionList]
    tauto
  · intro x
    simp only [mergeMetadataAdditive]
    simp only [mem_setUnionList]
    tauto
  · simp only [mergeMetadataAdditive]
    exact mergeImages_idem e.images n.images
  · simp only [mergeMetadataAdditive]
  · simp only [mergeMetadataAdditive]
  · simp only [mergeMetadataAdditive]
    simp

/-! ### Lock manager lemmas and Claim C3 -/

theorem validFrom_append (l1 : List LEvent) :
    ∀ l2 s, validFrom s (l1 ++ l2) =
      (validFrom s l1 && validFrom (l1.foldl lstep s) l2) := by
  induction l1 with
  | nil => intro l2 s; simp [validFrom]
  | cons e l1 ih =>
    intro l2 s
    simp only [List.cons_append, validFrom, List.foldl_cons, Bool.and_assoc]
    congr 1
    exact ih l2 (lstep s e)

/-- As long as no release and no sweep occurs, a held lock stays held
through any valid sequence of events. -/
theorem holder_stays_some (l : List LEvent) :
    ∀ s, s.holder.isSome = true →
      (∀ e ∈ l, isRel e = false ∧ e ≠ LEvent.sweep) →
      validFrom s l = true → ((l.foldl lstep s).holder.isSome = true) := by
  induction l with
  | nil => intro s hs _ _; exact hs
  | cons e l ih =>
    intro s hs hall hv
    simp only [validFrom, Bool.and_eq_true] at hv
    obtain ⟨hcond, hv'⟩ := hv
    have he := hall e (List.mem_cons_self e l)
    cases e with
    | acq p =>
      rw [Option.isNone_iff_eq_none] at hcond
      rw [hcond] at hs
      simp at hs
    | rel p => simp [isRel] at he
    | tick d =>
      refine ih (lstep s (LEvent.tick d)) ?_
        (fun e h => hall e (List.mem_cons_of_mem _ h)) hv'
      simpa [lstep] using hs
    | sweep => exact absurd rfl he.2

/-- Two successful acquires on the same id, with no release in between,
are possible only when the stale-lock sweep ran in between: absent a
sweep, the lock manager is mutually exclusive. -/
theorem lock_mutex_requires_sweep (p q : Nat) (pre mid post : List LEvent)
    (hv : validFrom initLockState
      (pre ++ LEvent.acq p :: (mid ++ LEvent.acq q :: post)) = true)
    (hnorel : ∀ e ∈ mid, isRel e = false) :
    ∃ e ∈ mid, e = LEvent.sweep := by
  by_contra hno
  push_neg at hno
  rw [validFrom_append, Bool.and_eq_true] at hv
  have hv2 := hv.2
  simp only [validFrom, Bool.and_eq_true] at hv2
  obtain ⟨h1, hv3⟩ := hv2
  rw [validFrom_append, Bool.and_eq_true] at hv3
  obtain ⟨hmid, hv4⟩ := hv3
  simp only [validFrom, Bool.and_eq_true] at hv4
  obtain ⟨hnone, -⟩ := hv4
  have hsome : ((lstep (pre.foldl lstep initLockState) (LEvent.acq p)).holder).isSome =
      true := by
    simp [lstep]
  have hstay := holder_stays_some mid (lstep (pre.foldl lstep initLockState) (LEvent.acq p))
    hsome (fun e he => ⟨hnorel e he, hno e he⟩) hmid
  rw [Option.isNone_iff_eq_none] at hnone
  rw [hnone] at hstay
  simp at hstay

/-- Counterexample to claim C3 as stated: after the first acquire holds
for more than the 60 s staleness threshold, the stale-lock sweep reclaims
it and a second acquire succeeds, with no release having ever happened. -/
theorem lock_mutex_counterexample :
    validFrom initLockState
      [LEvent.acq 1, LEvent.tick 60001, LEvent.sweep, LEvent.acq 2] = true ∧
    ∀ e ∈ [LEvent.acq 1, LEvent.tick 60001, LEvent.sweep, LEvent.acq 2],
      isRel e = false := by
  decide

/-- Witness for the amended C3 theorem on a concrete trace. -/
theorem lock_mutex_requires_sweep_witness :
    (validFrom initLockState
        ([] ++ LEvent.acq 1 ::
          ([LEvent.tick 60001, LEvent.sweep] ++ LEvent.acq 2 :: [])) = true ∧
      ∀ e ∈ [LEvent.tick 60001, LEvent.sweep], isRel e = false) ∧
    ∃ e ∈ [LEvent.tick 60001, LEvent.sweep], e = LEvent.sweep :=
  ⟨⟨by decide, by decide⟩,
   lock_mutex_requires_sweep 1 2 [] [LEvent.tick 60001, LEvent.sweep] []
     (by decide) (by decide)⟩

/-! ### Claim C6 -/

/-- Counterexample to claim C6 as stated: a lock of age 70000 ms is
removed by the sweep although its age does not exceed twenty times the
30000 ms sweep interval — the staleness threshold is not 20 times the
sweep interval. -/
theorem stale_threshold_counterexample :
    sweepStaleLocks [("a", 0)] 70000 = [] ∧
    ¬(70000 - 0 > 20 * SWEEP_INTERVAL_MS) := by
  decide

/-- Amended claim C6: the sweep removes exactly the locks whose age
strictly exceeds the staleness threshold, and that threshold is 2 (not
20) times the sweep interval. -/
theorem sweep_removes_exactly_stale (locks : List (String × Nat))
    (now : Nat) (lid : String) (ts : Nat) :
    ((lid, ts) ∈ sweepStaleLocks locks now ↔
      (lid, ts) ∈ locks ∧ ¬(now - ts > STALE_LOCK_MS)) ∧
    STALE_LOCK_MS = 2 * SWEEP_INTERVAL_MS := by
  constructor
  · simp [sweepStaleLocks, List.mem_filter]
  · rfl

/-! ### Dedup lemmas and Claims C7 and C8 -/

theorem hammingDistance_comm : ∀ (a b : List Char),
    hammingDistance a b = hammingDistance b a
  | [], [] => rfl
  | [], _ :: _ => rfl
  | _ :: _, [] => rfl
  | a :: as, b :: bs => by
    simp only [hammingDistance, hammingDistance_comm as bs]
    cases hammingDistance bs as with
    | none => rfl
    | some d =>
      by_cases hab : a = b
      · subst hab; simp
      · simp [hab, Ne.symm hab]

/-- Claim C7: the hash strategy classifies a pair of images with
resolvable fingerprints as duplicates exactly when the Hamming distance
of their hashes is at most the threshold — on the pair the greedy dedup
keeps only the first image iff the distance crosses the threshold. -/
theorem hash_pair_duplicate_criterion {α : Type}
    (hashOf : α → Option (List Char)) (x y : α) (hx hy : List Char)
    (h1 : hashOf x = some hx) (h2 : hashOf y = some hy) (t : Nat) :
    deduplicateImages hashOf [x, y] t =
      if distLe (hammingDistance hx hy) t then [x] else [x, y] := by
  have hgo : deduplicateImages hashOf [x, y] t =
      x :: (if distLe (hammingDistance hy hx) t then [] else [y]) := by
    unfold deduplicateImages
    simp [dedupGo, h1, h2]
  rw [hgo, hammingDistance_comm hy hx]
  by_cases hd : distLe (hammingDistance hx hy) t = true
  · rw [if_pos hd, if_pos hd]
  · rw [if_neg hd, if_neg hd]

/-- Hashes for the dedup witnesses: pairwise Hamming distances
d(h7a,h7b) = 3 and d(h7a,h7c) = 6. -/
def h7a : List Char := "0000000000000000".toList

/-- Hash at distance 3 from h7a. -/
def h7b : List Char := "0000000000000111".toList

/-- Hash at distance 6 from h7a. -/
def h7c : List Char := "0000000000111111".toList

/-- Concrete fingerprint oracle for the dedup witnesses. -/
def cHash7 : Nat → Option (List Char)
  | 0 => some h7a
  | 1 => some h7b
  | 2 => some h7c
  | _ => none

/-- Witness for C7: distance 3 with threshold 5 groups the pair (the
second image is removed as a duplicate); distance 6 with threshold 5
does not. -/
theorem hash_pair_duplicate_criterion_witness :
    (cHash7 0 = some h7a ∧ cHash7 1 = some h7b ∧
      hammingDistance h7a h7b = some 3 ∧
      deduplicateImages cHash7 [0, 1] 5 = [0]) ∧
    (cHash7 2 = some h7c ∧ hammingDistance h7a h7c = some 6 ∧
      deduplicateImages cHash7 [0, 2] 5 = [0, 2]) :=
  ⟨⟨rfl, rfl, by decide, by
      rw [hash_pair_duplicate_criterion cHash7 0 1 h7a h7b rfl rfl 5]
      decide⟩,
   ⟨rfl, by decide, by
      rw [hash_pair_duplicate_criterion cHash7 0 2 h7a h7c rfl rfl 5]
      decide⟩⟩

/-- Hashes for the C8 counterexample: d(hA,hB)=6, d(hB,hC)=5, d(hB,hD)=5,
d(hA,hC)=11, d(hA,hD)=11, d(hC,hD)=10. -/
def hashA : List Char := "0000000000000000".toList

/-- Six ones. -/
def hashB : List Char := "1111110000000000".toList

/-- Eleven ones, at distance 5 from hashB. -/
def hashC : List Char := "1111111111100000".toList

/-- Eleven ones, at distance 5 from hashB and 10 from hashC. -/
def hashD : List Char := "1111110000011111".toList

/-- Concrete fingerprint oracle for the C8 counterexample. -/
def cHash8 : Nat → Option (List Char)
  | 0 => some hashA
  | 1 => some hashB
  | 2 => some hashC
  | 3 => some hashD
  | _ => none

/-- Counterexample to claim C8 as stated: on this four-image set the
greedy dedup finds 2 duplicates at threshold 5 but only 1 at the larger
threshold 6 — raising the threshold turns image 1 into a duplicate of
image 0, so images 2 and 3 are no longer compared against it and become
canonical. -/
theorem dedup_threshold_monotonicity_counterexample :
    5 ≤ 6 ∧
    dedupRemoved cHash8 [0, 1, 2, 3] 6 < dedupRemoved cHash8 [0, 1, 2, 3] 5 := by
  decide

theorem distLe_mono {d : Option Nat} {t t' : Nat} (h : distLe d t = true)
    (htt : t ≤ t') : distLe d t' = true := by
  cases d with
  | none => simp [distLe] at h
  | some n =>
    simp only [distLe, decide_eq_true_eq] at h ⊢
    exact le_trans h htt

/-- Amended claim C8: the pairwise duplicate criterion is monotone in the
threshold, so on an image pair the number of duplicates found never
decreases when the threshold grows; for three or more images the greedy
reassignment of canonicals can decrease the count (see the
counterexample). -/
theorem dedup_pair_threshold_monotone {α : Type}
    (hashOf : α → Option (List Char)) (x y : α) (t t' : Nat) (h : t ≤ t') :
    dedupRemoved hashOf [x, y] t ≤ dedupRemoved hashOf [x, y] t' := by
  cases hx : hashOf x with
  | none =>
    have h0 : ∀ u, dedupRemoved hashOf [x, y] u = 0 := by
      intro u
      unfold dedupRemoved deduplicateImages
      cases hy : hashOf y with
      | none => simp [dedupGo, hx, hy]
      | some b => simp [dedupGo, hx, hy]
    rw [h0, h0]
  | some a =>
    cases hy : hashOf y with
    | none =>
      have h0 : ∀ u, dedupRemoved hashOf [x, y] u = 0 := by
        intro u
        unfold dedupRemoved deduplicateImages
        simp [dedupGo, hx, hy]
      rw [h0, h0]
    | some b =>
      have hgo : ∀ u, deduplicateImages hashOf [x, y] u =
          x :: (if distLe (hammingDistance b a) u then [] else [y]) := by
        intro u
        unfold deduplicateImages
        simp [dedupGo, hx, hy]
      unfold dedupRemoved
      rw [hgo, hgo]
      by_cases hd : distLe (hammingDistance b a) t = true
      · rw [if_pos hd, if_pos (distLe_mono hd h)]
      · rw [if_neg hd]
        by_cases hd2 : distLe (hammingDistance b a) t' = true
        · rw [if_pos hd2]
          simp
        · rw [if_neg hd2]

/-- Witness for the amended C8 theorem at a concrete pair. -/
theorem dedup_pair_threshold_monotone_witness :
    3 ≤ 7 ∧ dedupRemoved cHash7 [0, 1] 3 ≤ dedupRemoved cHash7 [0, 1] 7 :=
  ⟨by decide, dedup_pair_threshold_monotone cHash7 0 1 3 7 (by decide)⟩

/-! ### URL normalizer lemmas and Claim C5 -/

theorem pathnameOf_append_query (A qs : List Char) :
    pathnameOf (A ++ '?' :: qs) = pathnameOf A := by
  cases A with
  | nil =>
    simp only [List.nil_append, pathnameOf]
    rw [if_neg (by decide)]
  | cons c cs =>
    by_cases hc : c = '/'
    · subst hc
      simp only [List.cons_append, pathnameOf, if_pos rfl]
      rw [show ('/' :: (cs ++ '?' :: qs)) = ('/' :: cs) ++ '?' :: qs from rfl,
        List.takeWhile_append]
      by_cases hl : ((('/' :: cs).takeWhile fun c => !stopPath c).length =
          ('/' :: cs).length)
      · rw [if_pos hl]
        have h1 : (('?' :: qs).takeWhile fun c => !stopPath c) = [] := by
          rw [List.takeWhile_cons_of_neg]
          decide
        rw [h1, List.append_nil]
        exact ((List.takeWhile_prefix _).eq_of_length hl).symm
      · rw [if_neg hl]
    · simp only [List.cons_append, pathnameOf, if_neg hc]

theorem parseAfterScheme_append_query (scheme : String) (rest qs : List Char) :
    parseAfterScheme scheme (rest ++ '?' :: qs) = parseAfterScheme scheme rest := by
  have htw : (rest ++ '?' :: qs).takeWhile (fun c => !stopHost c) =
      rest.takeWhile (fun c => !stopHost c) := by
    rw [List.takeWhile_append]
    by_cases hl : ((rest.takeWhile fun c => !stopHost c).length = rest.length)
    · rw [if_pos hl]
      have h1 : (('?' :: qs).takeWhile fun c => !stopHost c) = [] := by
        rw [List.takeWhile_cons_of_neg]
        decide
      rw [h1, List.append_nil]
      exact ((List.takeWhile_prefix _).eq_of_length hl).symm
    · rw [if_neg hl]
  have hdw : pathnameOf ((rest ++ '?' :: qs).dropWhile (fun c => !stopHost c)) =
      pathnameOf (rest.dropWhile (fun c => !stopHost c)) := by
    rw [List.dropWhile_append]
    by_cases he : (rest.dropWhile fun c => !stopHost c).isEmpty
    · rw [if_pos he]
      have h0 : (rest.dropWhile fun c => !stopHost c) = [] := List.isEmpty_iff.mp he
      have h1 : (('?' :: qs).dropWhile fun c => !stopHost c) = '?' :: qs := by
        rw [List.dropWhile_cons_of_neg]
        decide
      rw [h0, h1]
      simpa using pathnameOf_append_query [] qs
    · rw [if_neg he]
      exact pathnameOf_append_query _ qs
  unfold parseAfterScheme
  rw [htw, hdw]

/-- Claim C5: URL normalization stability — appending a tracking query
parameter to any well-formed URL does not change its normalized key, and
an unparseable input is returned unchanged (the normalizer is total, so
it never throws). -/
theorem normalizeUrl_stable (url : String) :
    ((parseUrl url).isSome = true →
      normalizeUrl (url ++ "?utm_source=x") = normalizeUrl url) ∧
    (parseUrl url = none → normalizeUrl url = url) := by
  constructor
  · intro h
    have htl : (url ++ "?utm_source=x").toList =
        url.toList ++ '?' :: "utm_source=x".toList := rfl
    have hkey : parseUrl (url ++ "?utm_source=x") = parseUrl url := by
      unfold parseUrl at h ⊢
      rw [htl]
      by_cases h8 : url.toList.take 8 = "https://".toList
      · have hl := congrArg List.length h8
        rw [List.length_take, show ("https://".toList).length = 8 from rfl] at hl
        have hlen : 8 ≤ url.toList.length := by omega
        rw [List.take_append_of_le_length hlen, List.drop_append_of_le_length hlen,
          if_pos h8, if_pos h8]
        exact parseAfterScheme_append_query _ _ _
      · rw [if_neg h8] at h
        by_cases h7 : url.toList.take 7 = "http://".toList
        · rw [if_pos h7] at h
          have hl := congrArg List.length h7
          rw [List.length_take, show ("http://".toList).length = 7 from rfl] at hl
          have h7len : 7 ≤ url.toList.length := by omega
          have hrest : url.toList.drop 7 ≠ [] := by
            intro hnil
            rw [hnil] at h
            simp [parseAfterScheme] at h
          have hlen : 8 ≤ url.toList.length := by
            by_contra hc
            push_neg at hc
            exact hrest (List.drop_eq_nil_iff.mpr (by omega))
          have e8 : ¬ ((url.toList ++ '?' :: "utm_source=x".toList).take 8 =
              "https://".toList) := by
            rw [List.take_append_of_le_length hlen]
            exact h8
          have e7 : (url.toList ++ '?' :: "utm_source=x".toList).take 7 =
              "http://".toList := by
            rw [List.take_append_of_le_length h7len]
            exact h7
          rw [if_neg e8, if_pos e7, List.drop_append_of_le_length h7len,
            if_neg h8, if_pos h7]
          exact parseAfterScheme_append_query _ _ _
        · rw [if_neg h7] at h
          simp at h
    obtain ⟨u, hu⟩ := Option.isSome_iff_exists.mp h
    unfold normalizeUrl
    rw [hkey, hu]
  · intro h
    unfold normalizeUrl
    rw [h]

/-- Witness for C5: a concrete Airbnb listing URL keeps its normalized
key under a utm_source suffix, and a garbage string passes through. -/
theorem normalizeUrl_stable_witness :
    ((parseUrl "https://www.airbnb.com/rooms/123").isSome = true ∧
      normalizeUrl ("https://www.airbnb.com/rooms/123" ++ "?utm_source=x") =
        normalizeUrl "https://www.airbnb.com/rooms/123") ∧
    (parseUrl "not a url" = none ∧ normalizeUrl "not a url" = "not a url") :=
  ⟨⟨by decide, (normalizeUrl_stable "https://www.airbnb.com/rooms/123").1 (by decide)⟩,
   ⟨by decide, (normalizeUrl_stable "not a url").2 (by decide)⟩⟩

/-! ### Copy-loop lemmas and Claim C9 -/

theorem copyStepCopied_preserves (env : CopyEnv) (copied : List String)
    (filename : String) (hnd : copied.Nodup)
    (hex : ∀ fn ∈ copied, env.destExists fn = false) :
    (copyStepCopied env copied filename).Nodup ∧
    ∀ fn ∈ copyStepCopied env copied filename, env.destExists fn = false := by
  unfold copyStepCopied
  by_cases hcond : (env.destExists filename || copied.contains filename) = true
  · rw [if_pos hcond]
    exact ⟨hnd, hex⟩
  · rw [if_neg hcond]
    rw [Bool.not_eq_true, Bool.or_eq_false_iff] at hcond
    constructor
    · rw [List.nodup_append]
      refine ⟨hnd, List.nodup_singleton _, ?_⟩
      intro a ha hb
      simp only [List.mem_singleton] at hb
      subst hb
      have hc : copied.contains a = true := List.elem_eq_true_of_mem ha
      rw [hcond.2] at hc
      exact Bool.false_ne_true hc
    · intro fn hfn
      rcases List.mem_append.mp hfn with hold | hnew
      · exact hex fn hold
      · simp only [List.mem_singleton] at hnew
        subst hnew
        exact hcond.1

theorem copyStep_preserves (env : CopyEnv) (folder : String)
    (st : List String × List Image) (img : Image)
    (hnd : st.1.Nodup) (hex : ∀ fn ∈ st.1, env.destExists fn = false) :
    (copyStep env folder st img).1.Nodup ∧
    ∀ fn ∈ (copyStep env folder st img).1, env.destExists fn = false := by
  cases hl : img.localPath with
  | none =>
    simp only [copyStep, hl]
    exact ⟨hnd, hex⟩
  | some l =>
    simp only [copyStep, hl]
    by_cases hsrc : env.srcExists l = true
    · rw [if_pos hsrc]
      exact copyStepCopied_preserves env st.1 (basename l) hnd hex
    · rw [if_neg hsrc]
      exact ⟨hnd, hex⟩

theorem copyLoop_invariant (env : CopyEnv) (folder : String) (imgs : List Image) :
    ∀ st, st.1.Nodup → (∀ fn ∈ st.1, env.destExists fn = false) →
      ((imgs.foldl (copyStep env folder) st).1.Nodup ∧
        ∀ fn ∈ (imgs.foldl (copyStep env folder) st).1,
          env.destExists fn = false) := by
  induction imgs with
  | nil => intro st h1 h2; exact ⟨h1, h2⟩
  | cons a imgs ih =>
    intro st h1 h2
    have hstep := copyStep_preserves env folder st a h1 h2
    exact ih (copyStep env folder st a) hstep.1 hstep.2

/-- Hash oracle for the C9 counterexample: both images resolve to the
same perceptual hash (Hamming distance 0, well within threshold 5). -/
def cHashC9 : Image → Option (List Char) := fun _ => some hashA

/-- Filesystem environment for the C9 counterexample: every source
exists, the unified images directory starts empty. -/
def envC9 : CopyEnv := { srcExists := fun _ => true, destExists := fun _ => false }

/-- First image of the C9 counterexample. -/
def imgX9 : Image :=
  { original := some "u1", localPath := some "/downloads/a/images/x1.jpg" }

/-- Second image of the C9 counterexample, a perceptual duplicate of the
first under cHashC9. -/
def imgY9 : Image :=
  { original := some "u2", localPath := some "/downloads/a/images/x2.jpg" }

/-- Counterexample to claim C9 as stated: the merge endpoint of
src/server.js copies the caller-supplied image list without
deduplicating — on two images whose hashes are identical (distance 0,
duplicates at threshold 5) it stores both, while hash-dedup before
copying (as the part_000 variant does) would store one. -/
theorem merge_endpoint_dedup_counterexample :
    (serverMergeEndpointImages envC9 "uf" [imgX9, imgY9]).2.length = 2 ∧
    (copyImagesLoop envC9 "uf"
      (deduplicateImages cHashC9 [imgX9, imgY9] 5)).2.length = 1 ∧
    distLe (hammingDistance hashA hashA) 5 = true := by
  decide

/-- Amended claim C9: the part_000 variant of the merge endpoint
deduplicates the caller-supplied list with the hash strategy at threshold
5 before copying, and the copy loop never copies onto a target file that
already exists (each file name is copied at most once and only when it is
not already in the destination directory); the src/server.js variant
skips existing targets too but performs no deduplication. -/
theorem part000_merge_dedups_and_skips_existing (env : CopyEnv)
    (folder : String) (hashOf : Image → Option (List Char))
    (imgs : List Image) :
    part000MergeEndpointImages env folder hashOf imgs =
      copyImagesLoop env folder (deduplicateImages hashOf imgs 5) ∧
    (part000MergeEndpointImages env folder hashOf imgs).1.Nodup ∧
    ∀ fn ∈ (part000MergeEndpointImages env folder hashOf imgs).1,
      env.destExists fn = false := by
  refine ⟨rfl, ?_, ?_⟩
  · exact (copyLoop_invariant env folder (deduplicateImages hashOf imgs 5)
      ([], []) (by simp) (by simp)).1
  · exact (copyLoop_invariant env folder (deduplicateImages hashOf imgs 5)
      ([], []) (by simp) (by simp)).2

/-- Witness for the amended C9 theorem at a concrete input. -/
theorem part000_merge_dedups_and_skips_existing_witness :
    "x1.jpg" ∈ (part000MergeEndpointImages envC9 "uf" cHashC9 [imgX9, imgY9]).1 ∧
    envC9.destExists "x1.jpg" = false :=
  ⟨by decide,
   (part000_merge_dedups_and_skips_existing envC9 "uf" cHashC9
     [imgX9, imgY9]).2.2 "x1.jpg" (by decide)⟩

/-! ### PATCH handler lemmas and Claim C10 -/

theorem locLat_applyTitle (m : PListing) (v : Option String) :
    locLat (applyTitle m v) = locLat m := by
  cases v <;> rfl

theorem locLat_applySourceUrl (m : PListing) (v : Option String) :
    locLat (applySourceUrl m v) = locLat m := by
  cases v <;> rfl

theorem locLat_applyDescription (m : PListing) (v : Option String) :
    locLat (applyDescription m v) = locLat m := by
  cases v <;> rfl

theorem locLat_applyAmenities (m : PListing) (v : Option (List String)) :
    locLat (applyAmenities m v) = locLat m := by
  cases v <;> rfl

theorem locLat_applyImages (m : PListing) (v : Option (List Image)) :
    locLat (applyImages m v) = locLat m := by
  cases v <;> rfl

theorem locLat_applyLocationString (m : PListing) (l : String) :
    locLat (applyLocationString m l) = locLat m := by
  cases hm : m.location with
  | none =>
    simp only [applyLocationString, hm, Option.getD_none, locLat, emptyLocation]
    split_ifs <;> rfl
  | some v =>
    simp only [applyLocationString, hm, Option.getD_some, locLat, emptyLocation]
    split_ifs <;> rfl

theorem locLat_applyLocationOpt (m : PListing) (v : Option String) :
    locLat (applyLocationOpt m v) = locLat m := by
  cases v with
  | none => rfl
  | some l => exact locLat_applyLocationString m l

theorem locLng_applyTitle (m : PListing) (v : Option String) :
    locLng (applyTitle m v) = locLng m := by
  cases v <;> rfl

theorem locLng_applySourceUrl (m : PListing) (v : Option String) :
    locLng (applySourceUrl m v) = locLng m := by
  cases v <;> rfl

theorem locLng_applyDescription (m : PListing) (v : Option String) :
    locLng (applyDescription m v) = locLng m := by
  cases v <;> rfl

theorem locLng_applyAmenities (m : PListing) (v : Option (List String)) :
    locLng (applyAmenities m v) = locLng m := by
  cases v <;> rfl

theorem locLng_applyImages (m : PListing) (v : Option (List Image)) :
    locLng (applyImages m v) = locLng m := by
  cases v <;> rfl

theorem locLng_applyLocationString (m : PListing) (l : String) :
    locLng (applyLocationString m l) = locLng m := by
  cases hm : m.location with
  | none =>
    simp only [applyLocationString, hm, Option.getD_none, locLng, emptyLocation]
    split_ifs <;> rfl
  | some v =>
    simp only [applyLocationString, hm, Option.getD_some, locLng, emptyLocation]
    split_ifs <;> rfl

theorem locLng_applyLocationOpt (m : PListing) (v : Option String) :
    locLng (applyLocationOpt m v) = locLng m := by
  cases v with
  | none => rfl
  | some l => exact locLng_applyLocationString m l

theorem getD_one_some_length {coords : List (Option Rat)} {lng : Rat}
    (h : coords.getD 1 none = some lng) : 2 ≤ coords.length := by
  match coords with
  | [] => simp at h
  | [a] => simp at h
  | a :: b :: t => simp

/-- Out-of-range coordinates leave the stored latitude and longitude
untouched (the bounds check of src/server.js:690-694 silently skips the
assignment). -/
theorem applyGps_out_of_range (m : PListing) (coords : List (Option Rat))
    (lat lng : Rat)
    (h0 : coords.getD 0 none = some lat) (h1 : coords.getD 1 none = some lng)
    (hrange : ¬(-90 ≤ lat ∧ lat ≤ 90 ∧ -180 ≤ lng ∧ lng ≤ 180)) :
    locLat (applyGps m coords) = locLat m ∧
    locLng (applyGps m coords) = locLng m := by
  have hlen : coords.length ≥ 2 := getD_one_some_length h1
  unfold applyGps
  dsimp only
  rw [if_pos hlen, h0, h1]
  dsimp only
  rw [if_neg hrange]
  cases hm : m.location <;> constructor <;>
    simp [locLat, locLng, emptyLocation, hm]

theorem title_applySourceUrl (m : PListing) (v : Option String) :
    (applySourceUrl m v).title = m.title := by
  cases v <;> rfl

theorem title_applyDescription (m : PListing) (v : Option String) :
    (applyDescription m v).title = m.title := by
  cases v <;> rfl

theorem title_applyLocationOpt (m : PListing) (v : Option String) :
    (applyLocationOpt m v).title = m.title := by
  cases v <;> rfl

theorem title_applyGpsOpt (m : PListing) (v : Option (List (Option Rat))) :
    (applyGpsOpt m v).title = m.title := by
  cases v <;> rfl

theorem title_applyAmenities (m : PListing) (v : Option (List String)) :
    (applyAmenities m v).title = m.title := by
  cases v <;> rfl

theorem title_applyImages (m : PListing) (v : Option (List Image)) :
    (applyImages m v).title = m.title := by
  cases v <;> rfl

/-- Amended claim C10: a PATCH whose GPS coordinates parse but lie out of
range is not rejected — the latitude and longitude are silently left
unchanged while every other field of the same request (title here) is
still applied. -/
theorem patch_gps_out_of_range_ignored (m : PListing) (r : PatchReq)
    (now : String) (coords : List (Option Rat)) (lat lng : Rat)
    (hg : r.gps = some coords)
    (h0 : coords.getD 0 none = some lat) (h1 : coords.getD 1 none = some lng)
    (hrange : ¬(-90 ≤ lat ∧ lat ≤ 90 ∧ -180 ≤ lng ∧ lng ≤ 180)) :
    locLat (patchListing m r now) = locLat m ∧
    locLng (patchListing m r now) = locLng m ∧
    ∀ t, r.title = some t → (patchListing m r now).title = some t := by
  unfold patchListing
  rw [hg]
  refine ⟨?_, ?_, ?_⟩
  · show locLat (applyImages _ _) = locLat m
    rw [locLat_applyImages, locLat_applyAmenities]
    show locLat (applyGps _ coords) = locLat m
    rw [(applyGps_out_of_range _ coords lat lng h0 h1 hrange).1,
      locLat_applyLocationOpt, locLat_applyDescription, locLat_applySourceUrl,
      locLat_applyTitle]
  · show locLng (applyImages _ _) = locLng m
    rw [locLng_applyImages, locLng_applyAmenities]
    show locLng (applyGps _ coords) = locLng m
    rw [(applyGps_out_of_range _ coords lat lng h0 h1 hrange).2,
      locLng_applyLocationOpt, locLng_applyDescription, locLng_applySourceUrl,
      locLng_applyTitle]
  · intro t ht
    show (applyImages _ _).title = some t
    rw [title_applyImages, title_applyAmenities]
    show (applyGpsOpt _ (some coords)).title = some t
    rw [title_applyGpsOpt, title_applyLocationOpt, title_applyDescription,
      title_applySourceUrl, ht]
    rfl

/-- Concrete listing for the C10 counterexample: stored coordinates
(10, 20) and title "Old". -/
def mC10 : PListing :=
  { title := some "Old", sourceUrl := none, description := none,
    location := some { emptyLocation with lat := some 10, lng := some 20 },
    amenities := [], images := [], editedAt := none }

/-- Concrete PATCH request for the C10 counterexample: a new title plus
GPS coordinates with latitude 100, outside [-90, 90]. -/
def rC10 : PatchReq :=
  { title := some "New", sourceUrl := none, description := none,
    location := none, gps := some [some 100, some 0],
    amenities := none, images := none }

/-- Counterexample to claim C10 as stated: a request carrying latitude
100 (out of range) is not rejected and the listing does not stay
unchanged — the title of the same request is applied and editedAt is
set, only the coordinates are skipped. -/
theorem patch_gps_counterexample :
    (patchListing mC10 rC10 "T").title = some "New" ∧
    locLat (patchListing mC10 rC10 "T") = some 10 ∧
    patchListing mC10 rC10 "T" ≠ mC10 := by
  decide

/-- Witness for the amended C10 theorem at the concrete request. -/
theorem patch_gps_out_of_range_ignored_witness :
    (rC10.gps = some [some 100, some 0] ∧
      ([some 100, some 0] : List (Option Rat)).getD 0 none = some 100 ∧
      ([some 100, some 0] : List (Option Rat)).getD 1 none = some 0 ∧
      ¬((-90 : Rat) ≤ 100 ∧ (100 : Rat) ≤ 90 ∧ (-180 : Rat) ≤ 0 ∧ (0 : Rat) ≤ 180)) ∧
    locLat (patchListing mC10 rC10 "T") = locLat mC10 ∧
    (patchListing mC10 rC10 "T").title = some "New" :=
  ⟨⟨rfl, rfl, rfl, by decide⟩,
   (patch_gps_out_of_range_ignored mC10 rC10 "T" [some 100, some 0] 100 0
     rfl rfl rfl (by decide)).1,
   (patch_gps_out_of_range_ignored mC10 rC10 "T" [some 100, some 0] 100 0
     rfl rfl rfl (by decide)).2.2 "New" rfl⟩

end Unidown
